import Mathlib

set_option maxRecDepth 4000

/-!
Verification development for the bulk content-ingestion route
(src/src/routes/content/bulk.js). The JavaScript source is shallowly
embedded: the request state, the entry handlers, the reconciliation pass
and the completion logic are translated into executable Lean definitions,
and the behaviour of the platform primitives the route relies on
(plain-object property lookup, Node path functions, decodeURIComponent,
Buffer.concat, UTF-8 decoding, JSON.parse, the async work queue) is
modelled from their documented semantics.
-/

/-- String-keyed properties inherited by every plain JavaScript object from
Object.prototype. Each of these properties holds a function (or, for
__proto__, an object), so reading one of them on a plain object always
yields a truthy value. -/
def objectPrototypeKeys : List String :=
  ["constructor", "hasOwnProperty", "isPrototypeOf", "propertyIsEnumerable",
   "toLocaleString", "toString", "valueOf", "__defineGetter__",
   "__defineSetter__", "__lookupGetter__", "__lookupSetter__", "__proto__"]

/-- Model of the plain JavaScript object created by `let toKeep = \x7b\x7d` in the
source (bulk.js line 21). The source only ever stores the value `true`
(lines 100 and 108), so the object is represented by its list of own keys.
Reads fall back to Object.prototype, whose values are all truthy. -/
structure KeepMap where
  ownKeys : List String
deriving DecidableEq, Repr

/-- Model of the assignment `toKeep[k] = true`. Assigning a non-object value
to the key __proto__ is a silent no-op on a plain object (it targets the
inherited accessor), so that key is never added as an own key. -/
def KeepMap.set (m : KeepMap) (k : String) : KeepMap :=
  if k = "__proto__" then m else ⟨k :: m.ownKeys⟩

/-- Model of the truthiness test `toKeep[id]` used at bulk.js line 139: an own
key holds `true`; otherwise the lookup walks the prototype chain, and every
Object.prototype property is truthy; a completely absent key yields
`undefined`, which is falsy. -/
def KeepMap.truthy (m : KeepMap) (k : String) : Bool :=
  m.ownKeys.contains k || objectPrototypeKeys.contains k

/-- JSON values as produced by JSON.parse. Numbers keep their source lexeme:
no claim inspects numeric magnitudes, and this avoids committing to a
floating-point model. Object fields are kept in source order; a duplicated
key is resolved by taking the last occurrence, as JSON.parse does. -/
inductive Json where
  | null
  | bool (b : Bool)
  | num (lexeme : String)
  | str (s : String)
  | arr (elems : List Json)
  | obj (fields : List (String × Json))

/-- Whether a JSON number lexeme denotes zero: every mantissa digit is 0
(the exponent is then irrelevant). JSON grammar guarantees the lexeme shape. -/
def numLexemeIsZero (lex : String) : Bool :=
  let ds := lex.data.dropWhile (fun c => c = '-')
  let mantissa := ds.takeWhile (fun c => c ≠ 'e' && c ≠ 'E')
  mantissa.all (fun c => c = '0' || c = '.')

/-- JavaScript truthiness of a JSON.parse result: null, false, 0 and the
empty string are falsy; every array and object is truthy. -/
def jsTruthy : Json → Bool
  | Json.null => false
  | Json.bool b => b
  | Json.num lex => !(numLexemeIsZero lex)
  | Json.str s => !(s == "")
  | Json.arr _ => true
  | Json.obj _ => true

/-- Property access `v[k]` on a JSON.parse result: only objects have the
data properties of interest; on any other value the keys used by the source
(contentIDBase, keep) are absent, yielding `undefined` (modelled as none).
For a duplicated key the last occurrence wins, as in a JS object literal. -/
def jsProp : Json → String → Option Json
  | Json.obj fields, k => (fields.reverse.find? (fun f => f.1 == k)).map (fun f => f.2)
  | _, _ => none

/-- String form of a JSON number lexeme under the JavaScript Number-to-String
conversion, for the cases that arise from integral and short decimal
lexemes: a zero value prints as 0, a fractional part drops trailing zeros,
and an exponent-free lexeme is otherwise already canonical (JSON forbids
leading zeros). Lexemes with an exponent are returned unchanged, an
approximation; no claim depends on this function. -/
def jsNumberKey (lex : String) : String :=
  if numLexemeIsZero lex then "0"
  else if lex.data.any (fun c => c = 'e' || c = 'E') then lex
  else if lex.data.contains '.' then
    let trimmed := (lex.data.reverse.dropWhile (fun c => c = '0')).reverse
    let trimmed2 := if trimmed.getLast? = some '.' then trimmed.dropLast else trimmed
    String.mk trimmed2
  else lex

mutual

/-- Elements of an array rendered by Array.prototype.join: null prints as
the empty string, nested arrays are joined recursively. -/
def jsArrayElemKey : Json → String
  | Json.null => ""
  | Json.bool b => if b then "true" else "false"
  | Json.num lex => jsNumberKey lex
  | Json.str s => s
  | Json.arr es => jsArrayKeyParts es
  | Json.obj _ => "[object Object]"

/-- Comma-join of array elements, as Array.prototype.toString does. -/
def jsArrayKeyParts : List Json → String
  | [] => ""
  | [e] => jsArrayElemKey e
  | e :: es => jsArrayElemKey e ++ "," ++ jsArrayKeyParts es

end

/-- JavaScript ToPropertyKey coercion of a JSON value, used when a value from
a keep list is written into the plain object `toKeep`. -/
def jsPropertyKey : Json → String
  | Json.null => "null"
  | Json.bool b => if b then "true" else "false"
  | Json.num lex => jsNumberKey lex
  | Json.str s => s
  | Json.arr es => jsArrayKeyParts es
  | Json.obj _ => "[object Object]"

/-- Model of Node path.basename(p) on posix paths: trailing slashes are
ignored and the final non-slash run is returned. -/
def pathBasename (p : String) : String :=
  let t := p.data.reverse.dropWhile (fun c => c = '/')
  String.mk (t.takeWhile (fun c => c != '/')).reverse

/-- Suffix test on the character sequences of two strings. -/
def strEndsWith (s suffix : String) : Bool :=
  suffix.data.isSuffixOf s.data

/-- Removal of the last n characters of a string. -/
def strDropRight (s : String) (n : Nat) : String :=
  String.mk (s.data.take (s.data.length - n))

/-- Model of Node path.basename(p, ext): the plain basename, with ext removed
when the basename ends with ext. Node keeps the basename whole when it is
exactly equal to ext (the scan that matches ext then consumes the entire
basename and the slice falls back to the full name), and an empty ext is
ignored; both corners are reflected here. -/
def pathBasenameExt (p ext : String) : String :=
  let b := pathBasename p
  if ext != "" && strEndsWith b ext && b != ext then strDropRight b ext.length else b

/-- Model of Node path.dirname(p) on posix paths: everything before the slash
that precedes the final non-slash run, with the Node corner cases (no slash
gives a dot, a root-only prefix gives a slash, a double-slash root at exactly
position 1 is preserved). -/
def pathDirname (p : String) : String :=
  if p.data.isEmpty then "." else
  let hasRoot := p.data.head? = some '/'
  let t := (p.data.reverse.dropWhile (fun c => c = '/')).reverse
  let base := (t.reverse.takeWhile (fun c => c != '/')).reverse
  let r := t.take (t.length - base.length)
  if r.isEmpty then (if hasRoot then "/" else ".")
  else if r.length = 1 then "/"
  else if hasRoot && r.length = 2 then "//"
  else String.mk r.dropLast

/-- Split of a character list on a separator character, with the semantics of
the JavaScript String split method on a one-character separator: the empty
input gives one empty group, a trailing separator a trailing empty group. -/
def splitOnChar (cs : List Char) (sep : Char) : List (List Char) :=
  cs.foldr
    (fun c acc =>
      match acc with
      | g :: gs => if c = sep then [] :: g :: gs else (c :: g) :: gs
      | [] => [[c]])
    [[]]

/-- The name of the immediate parent directory, as the source computes it at
bulk.js lines 174 and 175: dirname, split on the path separator, last piece. -/
def lastDirComponent (p : String) : String :=
  String.mk (((splitOnChar (pathDirname p).data '/').getLastD []))

/-- Value of a hexadecimal digit, or none. -/
def hexDigitVal (c : Char) : Option Nat :=
  if '0' ≤ c ∧ c ≤ '9' then some (c.toNat - 48)
  else if 'A' ≤ c ∧ c ≤ 'F' then some (c.toNat - 55)
  else if 'a' ≤ c ∧ c ≤ 'f' then some (c.toNat - 87)
  else none

/-- Reads one percent escape: a percent sign followed by two hex digits. -/
def pctByte : List Char → Option (Nat × List Char)
  | '%' :: h1 :: h2 :: rest => do
    let a ← hexDigitVal h1
    let b ← hexDigitVal h2
    pure (16 * a + b, rest)
  | _ => none

/-- Core loop of decodeURIComponent per the ECMAScript Decode algorithm:
unescaped characters pass through; percent escapes must form a valid
(shortest-form, non-surrogate) UTF-8 byte sequence, each continuation byte
itself written as a percent escape, otherwise a URIError is thrown
(modelled as none). Fuel decreases on every step; each step consumes at
least one character, so fuel = length + 1 suffices. -/
def uriDecodeAux : Nat → List Char → Option (List Char)
  | 0, _ => none
  | _ + 1, [] => some []
  | fuel + 1, '%' :: cs =>
    match pctByte ('%' :: cs) with
    | none => none
    | some (b, rest) =>
      if b < 0x80 then do
        let tail ← uriDecodeAux fuel rest
        pure (Char.ofNat b :: tail)
      else if 0xC2 ≤ b ∧ b ≤ 0xDF then
        match pctByte rest with
        | some (c1, rest2) =>
          if 0x80 ≤ c1 ∧ c1 ≤ 0xBF then do
            let tail ← uriDecodeAux fuel rest2
            pure (Char.ofNat ((b - 0xC0) * 64 + (c1 - 0x80)) :: tail)
          else none
        | none => none
      else if 0xE0 ≤ b ∧ b ≤ 0xEF then
        match pctByte rest with
        | some (c1, rest2) =>
          let lo1 := if b = 0xE0 then 0xA0 else 0x80
          let hi1 := if b = 0xED then 0x9F else 0xBF
          if lo1 ≤ c1 ∧ c1 ≤ hi1 then
            match pctByte rest2 with
            | some (c2, rest3) =>
              if 0x80 ≤ c2 ∧ c2 ≤ 0xBF then do
                let tail ← uriDecodeAux fuel rest3
                pure (Char.ofNat ((b - 0xE0) * 4096 + (c1 - 0x80) * 64 + (c2 - 0x80)) :: tail)
              else none
            | none => none
          else none
        | none => none
      else if 0xF0 ≤ b ∧ b ≤ 0xF4 then
        match pctByte rest with
        | some (c1, rest2) =>
          let lo1 := if b = 0xF0 then 0x90 else 0x80
          let hi1 := if b = 0xF4 then 0x8F else 0xBF
          if lo1 ≤ c1 ∧ c1 ≤ hi1 then
            match pctByte rest2 with
            | some (c2, rest3) =>
              if 0x80 ≤ c2 ∧ c2 ≤ 0xBF then
                match pctByte rest3 with
                | some (c3, rest4) =>
                  if 0x80 ≤ c3 ∧ c3 ≤ 0xBF then do
                    let tail ← uriDecodeAux fuel rest4
                    pure (Char.ofNat ((b - 0xF0) * 262144 + (c1 - 0x80) * 4096
                      + (c2 - 0x80) * 64 + (c3 - 0x80)) :: tail)
                  else none
                | none => none
              else none
            | none => none
          else none
        | none => none
      else none
  | fuel + 1, c :: cs => do
    let tail ← uriDecodeAux fuel cs
    pure (c :: tail)

/-- Model of decodeURIComponent: none models a thrown URIError. A decoded
code point above 0xFFFF appears as a surrogate pair in a JS string; here it
is a single scalar, the same text. -/
def decodeURIComponent (s : String) : Option String :=
  (uriDecodeAux (s.length + 1) s.data).map String.mk

/-- Model of Buffer.concat(chunks, totalLength) (bulk.js line 243): the
chunks are copied in order into a buffer of exactly totalLength bytes, so
surplus bytes are silently dropped and, per the Node documentation, a
shortfall is zero-filled. -/
def bufferConcat (chunks : List (List Nat)) (totalLength : Nat) : List Nat :=
  let all := chunks.join
  all.take totalLength ++ List.replicate (totalLength - all.length) 0

/-- WHATWG UTF-8 decode with replacement, the semantics of
buf.toString with the utf-8 label (bulk.js line 244): malformed input never
throws, each maximal invalid subpart becomes U+FFFD. Fuel decreases every
step and each step consumes at least one byte. -/
def utf8DecodeAux : Nat → List Nat → List Char
  | 0, _ => []
  | _ + 1, [] => []
  | fuel + 1, b :: bs =>
    if b < 0x80 then Char.ofNat b :: utf8DecodeAux fuel bs
    else if 0xC2 ≤ b ∧ b ≤ 0xDF then
      match bs with
      | c1 :: bs2 =>
        if 0x80 ≤ c1 ∧ c1 ≤ 0xBF then
          Char.ofNat ((b - 0xC0) * 64 + (c1 - 0x80)) :: utf8DecodeAux fuel bs2
        else Char.ofNat 0xFFFD :: utf8DecodeAux fuel bs
      | [] => [Char.ofNat 0xFFFD]
    else if 0xE0 ≤ b ∧ b ≤ 0xEF then
      let lo1 := if b = 0xE0 then 0xA0 else 0x80
      let hi1 := if b = 0xED then 0x9F else 0xBF
      match bs with
      | c1 :: bs2 =>
        if lo1 ≤ c1 ∧ c1 ≤ hi1 then
          match bs2 with
          | c2 :: bs3 =>
            if 0x80 ≤ c2 ∧ c2 ≤ 0xBF then
              Char.ofNat ((b - 0xE0) * 4096 + (c1 - 0x80) * 64 + (c2 - 0x80))
                :: utf8DecodeAux fuel bs3
            else Char.ofNat 0xFFFD :: utf8DecodeAux fuel bs2
          | [] => [Char.ofNat 0xFFFD]
        else Char.ofNat 0xFFFD :: utf8DecodeAux fuel bs
      | [] => [Char.ofNat 0xFFFD]
    else if 0xF0 ≤ b ∧ b ≤ 0xF4 then
      let lo1 := if b = 0xF0 then 0x90 else 0x80
      let hi1 := if b = 0xF4 then 0x8F else 0xBF
      match bs with
      | c1 :: bs2 =>
        if lo1 ≤ c1 ∧ c1 ≤ hi1 then
          match bs2 with
          | c2 :: bs3 =>
            if 0x80 ≤ c2 ∧ c2 ≤ 0xBF then
              match bs3 with
              | c3 :: bs4 =>
                if 0x80 ≤ c3 ∧ c3 ≤ 0xBF then
                  Char.ofNat ((b - 0xF0) * 262144 + (c1 - 0x80) * 4096
                    + (c2 - 0x80) * 64 + (c3 - 0x80)) :: utf8DecodeAux fuel bs4
                else Char.ofNat 0xFFFD :: utf8DecodeAux fuel bs3
              | [] => [Char.ofNat 0xFFFD]
            else Char.ofNat 0xFFFD :: utf8DecodeAux fuel bs2
          | [] => [Char.ofNat 0xFFFD]
        else Char.ofNat 0xFFFD :: utf8DecodeAux fuel bs
      | [] => [Char.ofNat 0xFFFD]
    else Char.ofNat 0xFFFD :: utf8DecodeAux fuel bs

/-- UTF-8 decoding with replacement of a byte list into a string. -/
def utf8DecodeReplace (bytes : List Nat) : String :=
  String.mk (utf8DecodeAux (bytes.length + 1) bytes)

/-- JSON insignificant whitespace. -/
def jsonWS (cs : List Char) : List Char :=
  cs.dropWhile (fun c => c = ' ' ∨ c = '\t' ∨ c = '\n' ∨ c = '\r')

/-- Reads four hex digits of a unicode escape. -/
def parseHex4 : List Char → Option (Nat × List Char)
  | h1 :: h2 :: h3 :: h4 :: rest => do
    let a ← hexDigitVal h1
    let b ← hexDigitVal h2
    let c ← hexDigitVal h3
    let d ← hexDigitVal h4
    pure (((a * 16 + b) * 16 + c) * 16 + d, rest)
  | _ => none

/-- String body scanner for JSON.parse, called after the opening quote:
unescaped control characters are rejected, the JSON escapes are decoded,
and a surrogate pair of unicode escapes combines into one code point. A
lone surrogate escape, which a JS engine would keep as a bare UTF-16 code
unit, is represented by U+FFFD since Lean strings hold scalar values; no
claim depends on that corner. -/
def parseJStringAux : Nat → List Char → List Char → Option (String × List Char)
  | 0, _, _ => none
  | _ + 1, acc, '"' :: rest => some (String.mk acc.reverse, rest)
  | fuel + 1, acc, '\\' :: e :: rest =>
    match e with
    | '"' => parseJStringAux fuel ('"' :: acc) rest
    | '\\' => parseJStringAux fuel ('\\' :: acc) rest
    | '/' => parseJStringAux fuel ('/' :: acc) rest
    | 'b' => parseJStringAux fuel (Char.ofNat 8 :: acc) rest
    | 'f' => parseJStringAux fuel (Char.ofNat 12 :: acc) rest
    | 'n' => parseJStringAux fuel (Char.ofNat 10 :: acc) rest
    | 'r' => parseJStringAux fuel (Char.ofNat 13 :: acc) rest
    | 't' => parseJStringAux fuel (Char.ofNat 9 :: acc) rest
    | 'u' =>
      match parseHex4 rest with
      | none => none
      | some (n, rest2) =>
        if 0xD800 ≤ n ∧ n ≤ 0xDBFF then
          match rest2 with
          | '\\' :: 'u' :: rest3 =>
            match parseHex4 rest3 with
            | some (m, rest4) =>
              if 0xDC00 ≤ m ∧ m ≤ 0xDFFF then
                parseJStringAux fuel
                  (Char.ofNat (0x10000 + (n - 0xD800) * 1024 + (m - 0xDC00)) :: acc) rest4
              else parseJStringAux fuel (Char.ofNat 0xFFFD :: acc) rest2
            | none => parseJStringAux fuel (Char.ofNat 0xFFFD :: acc) rest2
          | _ => parseJStringAux fuel (Char.ofNat 0xFFFD :: acc) rest2
        else if 0xDC00 ≤ n ∧ n ≤ 0xDFFF then
          parseJStringAux fuel (Char.ofNat 0xFFFD :: acc) rest2
        else parseJStringAux fuel (Char.ofNat n :: acc) rest2
    | _ => none
  | fuel + 1, acc, c :: rest =>
    if c.toNat < 0x20 then none else parseJStringAux fuel (c :: acc) rest
  | _, _, [] => none

/-- Decimal digit test. -/
def isJsonDigit (c : Char) : Bool := '0' ≤ c && c ≤ '9'

/-- Number scanner for JSON.parse, following the JSON number grammar exactly
(no leading zeros, a fraction and exponent each need at least one digit);
the accepted lexeme is kept verbatim. -/
def parseJNumber (cs : List Char) : Option (String × List Char) :=
  let (neg, cs1) := match cs with
    | '-' :: r => (['-'], r)
    | _ => (([] : List Char), cs)
  let intPart : Option (List Char × List Char) := match cs1 with
    | '0' :: r => some (['0'], r)
    | c :: _ =>
      if isJsonDigit c && c != '0' then
        some (cs1.takeWhile isJsonDigit, cs1.dropWhile isJsonDigit)
      else none
    | [] => none
  match intPart with
  | none => none
  | some (ip, cs2) =>
    let fracPart : Option (List Char × List Char) := match cs2 with
      | '.' :: r =>
        if (r.takeWhile isJsonDigit).isEmpty then none
        else some ('.' :: r.takeWhile isJsonDigit, r.dropWhile isJsonDigit)
      | _ => some ([], cs2)
    match fracPart with
    | none => none
    | some (fp, cs3) =>
      let expPart : Option (List Char × List Char) := match cs3 with
        | e :: r =>
          if e = 'e' ∨ e = 'E' then
            let (sgn, r2) := match r with
              | '+' :: r3 => (['+'], r3)
              | '-' :: r3 => (['-'], r3)
              | _ => (([] : List Char), r)
            if (r2.takeWhile isJsonDigit).isEmpty then none
            else some (e :: sgn ++ r2.takeWhile isJsonDigit, r2.dropWhile isJsonDigit)
          else some ([], cs3)
        | [] => some ([], cs3)
      match expPart with
      | none => none
      | some (ep, cs4) => some (String.mk (neg ++ ip ++ fp ++ ep), cs4)

mutual

/-- Value parser of JSON.parse over the ECMA-404 grammar. Fuel decreases on
every recursive call; each nesting level consumes at least one input
character, so fuel = input length + 1 suffices. -/
def parseJValue : Nat → List Char → Option (Json × List Char)
  | 0, _ => none
  | fuel + 1, cs =>
    match jsonWS cs with
    | 'n' :: 'u' :: 'l' :: 'l' :: rest => some (Json.null, rest)
    | 't' :: 'r' :: 'u' :: 'e' :: rest => some (Json.bool true, rest)
    | 'f' :: 'a' :: 'l' :: 's' :: 'e' :: rest => some (Json.bool false, rest)
    | '"' :: rest =>
      (parseJStringAux (rest.length + 1) [] rest).map (fun p => (Json.str p.1, p.2))
    | '[' :: rest =>
      (match jsonWS rest with
       | ']' :: r2 => some (Json.arr [], r2)
       | r2 => (parseJElems fuel r2).map (fun p => (Json.arr p.1, p.2)))
    | '{' :: rest =>
      (match jsonWS rest with
       | '}' :: r2 => some (Json.obj [], r2)
       | r2 => (parseJMembers fuel r2).map (fun p => (Json.obj p.1, p.2)))
    | rest => (parseJNumber rest).map (fun p => (Json.num p.1, p.2))

/-- Array elements: value (comma value)* closing bracket. -/
def parseJElems : Nat → List Char → Option (List Json × List Char)
  | 0, _ => none
  | fuel + 1, cs => do
    let (v, r) ← parseJValue fuel cs
    match jsonWS r with
    | ',' :: r2 => do
      let (vs, r3) ← parseJElems fuel r2
      pure (v :: vs, r3)
    | ']' :: r2 => pure ([v], r2)
    | _ => none

/-- Object members: string colon value (comma pair)* closing brace. -/
def parseJMembers : Nat → List Char → Option (List (String × Json) × List Char)
  | 0, _ => none
  | fuel + 1, cs =>
    match jsonWS cs with
    | '"' :: r => do
      let (k, r2) ← parseJStringAux (r.length + 1) [] r
      match jsonWS r2 with
      | ':' :: r3 => do
        let (v, r4) ← parseJValue fuel r3
        match jsonWS r4 with
        | ',' :: r5 => do
          let (ms, r6) ← parseJMembers fuel r5
          pure ((k, v) :: ms, r6)
        | '}' :: r5 => pure ([(k, v)], r5)
        | _ => none
      | _ => none
    | _ => none

end

/-- Model of JSON.parse: one value surrounded by optional whitespace, and
nothing after it; none models a thrown SyntaxError. -/
def jsonParse (s : String) : Option Json :=
  match parseJValue (s.length + 1) s.data with
  | some (v, rest) => if (jsonWS rest).isEmpty then some v else none
  | none => none

/-- Final outcome of an entry content stream as jsonFromStream observes it:
either the error event fired, or the end event fired after delivering the
data chunks while the codec reported a size for the entry. -/
inductive StreamOutcome where
  | ended (chunks : List (List Nat)) (size : Nat)
  | errored (message : String)

/-- Model of jsonFromStream (bulk.js lines 236 to 251): on a stream error the
callback receives the error; on end the chunks are concatenated into a
buffer of exactly stream.size bytes, decoded as UTF-8 and parsed as JSON,
and a thrown parse error reaches the callback through the catch. -/
def jsonFromStream : StreamOutcome → Except String Json
  | StreamOutcome.errored m => Except.error m
  | StreamOutcome.ended chunks size =>
    match jsonParse (utf8DecodeReplace (bufferConcat chunks size)) with
    | some v => Except.ok v
    | none => Except.error "SyntaxError"

/-- The unit of work pushed onto the upload queue (bulk.js line 118). -/
structure IngestionTask where
  contentID : String
  envelope : Json

/-- Per-request mutable state of the handler (bulk.js lines 17 to 21). The
contentIDBase holds the raw JSON value assigned from the config entry. -/
structure RequestState where
  contentIDBase : Option Json
  envelopeCount : Nat
  failureCount : Nat
  deletionCount : Nat
  toKeep : KeepMap

/-- The state as initialised at the top of the handler. -/
def initialState : RequestState :=
  { contentIDBase := none, envelopeCount := 0, failureCount := 0,
    deletionCount := 0, toKeep := ⟨[]⟩ }

/-- Externally visible responses the handler can produce: a fatal error
passed to next with the statusCode set on the error (reportError with
fatal), the success completion res.send(204) followed by next
(reportCompletion), and the direct res.send(400, err) of the archive
decode error handler. -/
inductive Emit where
  | fatalNext (statusCode : Nat)
  | completionSend (status : Nat)
  | errorSend (status : Nat)
deriving DecidableEq, Repr

/-- Model of reportError (bulk.js lines 53 to 73): with the fatal flag it
sets err.statusCode = 400 and forwards the error to next, producing a
response; without it the problem is only logged and nothing is emitted. -/
def reportErrorEmits (fatal : Bool) : List Emit :=
  if fatal then [Emit.fatalNext 400] else []

/-- Whether an HTTP status is in the server error class. -/
def isServerClass (status : Nat) : Bool := 500 ≤ status && status < 600

/-- Whether an HTTP status is in the client error class. -/
def isClientClass (status : Nat) : Bool := 400 ≤ status && status < 500

/-- Response of the archive decode error handler (bulk.js lines 204 to 213):
res.send(400, err). -/
def archiveErrorEmits : List Emit := [Emit.errorSend 400]

/-- Model of handleConfigEntry (bulk.js lines 76 to 87) given the outcome of
jsonFromStream for the entry: a parse error or a falsy contentIDBase
property is reported non-fatally and leaves the state unchanged; otherwise
contentIDBase is assigned. -/
def handleConfigEntry (st : RequestState) (parsed : Except String Json) :
    RequestState × List Emit :=
  match parsed with
  | Except.error _ => (st, reportErrorEmits false)
  | Except.ok config =>
    match jsProp config "contentIDBase" with
    | none => (st, reportErrorEmits false)
    | some v =>
      if jsTruthy v then ({ st with contentIDBase := some v }, [])
      else (st, reportErrorEmits false)

/-- Model of handleKeepEntry (bulk.js lines 90 to 103): a parse error or a
falsy keep property is reported non-fatally; a truthy keep array merges
each listed value into toKeep. A truthy non-array keep makes
keep.keep.forEach throw a TypeError, which the try block of jsonFromStream
catches and routes back through the callback as a non-fatal entry error. -/
def handleKeepEntry (st : RequestState) (parsed : Except String Json) :
    RequestState × List Emit :=
  match parsed with
  | Except.error _ => (st, reportErrorEmits false)
  | Except.ok keepJson =>
    match jsProp keepJson "keep" with
    | none => (st, reportErrorEmits false)
    | some v =>
      if jsTruthy v then
        match v with
        | Json.arr elems =>
          ({ st with toKeep := elems.foldl (fun m e => m.set (jsPropertyKey e)) st.toKeep }, [])
        | _ => (st, reportErrorEmits false)
      else (st, reportErrorEmits false)

/-- Model of handleEnvelopeEntry (bulk.js lines 105 to 120): the content ID
is percent-decoded from the path synchronously and added to toKeep before
the stream is materialised; none models the uncaught URIError thrown by
decodeURIComponent on an undecodable name, in which case nothing runs. The
jsonFromStream outcome then either increments failureCount non-fatally or
yields the task pushed onto the upload queue. -/
def handleEnvelopeEntry (st : RequestState) (entryPath : String)
    (parsed : Except String Json) :
    Option (RequestState × List Emit × Option IngestionTask) :=
  match decodeURIComponent (pathBasenameExt entryPath ".json") with
  | none => none
  | some contentID =>
    let st1 := { st with toKeep := st.toKeep.set contentID }
    match parsed with
    | Except.error _ =>
      some ({ st1 with failureCount := st1.failureCount + 1 }, reportErrorEmits false, none)
    | Except.ok envelope =>
      some (st1, [], some { contentID := contentID, envelope := envelope })

/-- Model of envelopeWorker (bulk.js lines 23 to 48) given the outcome of
storeEnvelope for one task: a storage error increments failureCount and is
reported non-fatally; success increments envelopeCount. The keep map is
never touched. -/
def envelopeWorker (st : RequestState) (_task : IngestionTask)
    (storeErr : Option String) : RequestState × List Emit :=
  match storeErr with
  | some _ => ({ st with failureCount := st.failureCount + 1 }, reportErrorEmits false)
  | none => ({ st with envelopeCount := st.envelopeCount + 1 }, [])

/-- Classification outcome of one archive entry path, with the content ID a
classified envelope entry would use (none when decodeURIComponent throws).
The source logs the two unrecognized situations differently but treats
both as ignored. -/
inductive SpecClass where
  | config
  | keep
  | envelope (contentID : Option String)
  | ignored
deriving DecidableEq, Repr

/-- Classification performed by the entry listener (bulk.js lines 171 to
202) combined with the content ID computation of handleEnvelopeEntry
(bulk.js lines 106 and 107): under an immediate parent directory named
metadata only config.json and keep.json are recognised; otherwise a base
name ending in .json is an envelope whose ID percent-decodes
path.basename(entry.path, ".json"). -/
def classifyDecoded (p : String) : SpecClass :=
  let dname := lastDirComponent p
  let bname := pathBasename p
  if dname == "metadata" then
    if bname == "config.json" then SpecClass.config
    else if bname == "keep.json" then SpecClass.keep
    else SpecClass.ignored
  else if strEndsWith bname ".json" then
    SpecClass.envelope (decodeURIComponent (pathBasenameExt p ".json"))
  else SpecClass.ignored

/-- Modelled from the spec: the classification rule exactly as the claim
words it, with the envelope content ID the percent-decoding of the base
name with the .json suffix stripped unconditionally. -/
def classifySpecLiteral (p : String) : SpecClass :=
  let dname := lastDirComponent p
  let bname := pathBasename p
  if dname == "metadata" then
    if bname == "config.json" then SpecClass.config
    else if bname == "keep.json" then SpecClass.keep
    else SpecClass.ignored
  else if strEndsWith bname ".json" then
    SpecClass.envelope (decodeURIComponent (strDropRight bname 5))
  else SpecClass.ignored

/-- The classification rule amended minimally: when the base name is exactly
.json, path.basename(p, ".json") keeps the name whole, so the suffix is not
stripped for that one base name. -/
def classifySpecAmended (p : String) : SpecClass :=
  let dname := lastDirComponent p
  let bname := pathBasename p
  if dname == "metadata" then
    if bname == "config.json" then SpecClass.config
    else if bname == "keep.json" then SpecClass.keep
    else SpecClass.ignored
  else if strEndsWith bname ".json" then
    SpecClass.envelope
      (decodeURIComponent (if bname == ".json" then bname else strDropRight bname 5))
  else SpecClass.ignored

/-- The guard at the top of the entry listener (bulk.js line 172): only
entries whose type is the string File are processed at all. -/
def onEntry (entryType : String) (p : String) : Option SpecClass :=
  if entryType == "File" then some (classifyDecoded p) else none

/-- Terminal response of the paginated listing after any full pages: either
the zero-item page that ends pagination, or a listing error. -/
inductive ListTerm where
  | emptyPage
  | failure (message : String)

/-- The pagination loop of removeDeletedContent (bulk.js lines 130 to 137):
each delivered page with at least one ID is accumulated and the next page
is requested; a zero-item page stops with the accumulated IDs; an error
from the store aborts the listing. -/
def collectExisting : List (List String) → ListTerm → List String →
    Except String (List String)
  | [], ListTerm.emptyPage, acc => Except.ok acc
  | [], ListTerm.failure e, _ => Except.error e
  | p :: rest, t, acc =>
    if 0 < p.length then collectExisting rest t (acc ++ p) else Except.ok acc

/-- The delete set computed at bulk.js line 139: the listed IDs whose lookup
in toKeep is falsy. -/
def reconToDelete (keep : KeepMap) (existing : List String) : List String :=
  existing.filter (fun id => !(keep.truthy id))

/-- Modelled from the spec: the set difference toDelete = existingIDs minus a
keep list, as the reconciliation step of the spec words it. -/
def specSetDiff (existing keepList : List String) : List String :=
  existing.filter (fun id => !(keepList.contains id))

/-- Model of removeDeletedContent (bulk.js lines 122 to 153): skipped
outright when contentIDBase was never assigned; otherwise the listing is
accumulated page by page, the delete set is computed and counted into
deletionCount, and removeEnvelopes runs with the given outcome. The pair
carries the state next to the error the callback receives, since
deletionCount is assigned before the deletion can fail. -/
def removeDeletedContent (st : RequestState) (pages : List (List String))
    (t : ListTerm) (deleteErr : Option String) : RequestState × Option String :=
  match st.contentIDBase with
  | none => (st, none)
  | some _ =>
    match collectExisting pages t [] with
    | Except.error e => (st, some e)
    | Except.ok existing =>
      let toDelete := reconToDelete st.toKeep existing
      let st1 := { st with deletionCount := toDelete.length }
      match deleteErr with
      | some e => (st1, some e)
      | none => (st1, none)

/-- Model of finishRequest (bulk.js lines 216 to 223): removeDeletedContent
runs, a failure is reported fatally through reportError, and
reportCompletion runs afterwards in every case because the error branch
does not return. -/
def finishRequest (st : RequestState) (pages : List (List String))
    (t : ListTerm) (deleteErr : Option String) : RequestState × List Emit :=
  let r := removeDeletedContent st pages t deleteErr
  match r.2 with
  | some _ => (r.1, reportErrorEmits true ++ [Emit.completionSend 204])
  | none => (r.1, [Emit.completionSend 204])

/-- State of the upload queue: tasks pushed but not yet started, and tasks a
worker is currently processing. -/
structure QueueState where
  pending : Nat
  running : Nat
deriving DecidableEq, Repr

/-- Modelled from the spec: the bounded worker pool of the Envelope
Ingestion Queue (the async library implementing uploadQueue is outside
src/), with the concurrency bound 10 taken from bulk.js line 50. A push
enqueues a task without starting it (the library defers worker start to a
later tick), a worker starts a pending task only while fewer than 10 run,
and a worker finishing leaves the pool. -/
inductive QueueStep : QueueState → QueueState → Prop
  | push (p r : Nat) : QueueStep ⟨p, r⟩ ⟨p + 1, r⟩
  | start (p r : Nat) : r < 10 → QueueStep ⟨p + 1, r⟩ ⟨p, r + 1⟩
  | finish (p r : Nat) : QueueStep ⟨p, r + 1⟩ ⟨p, r⟩

/-- Queue states reachable from the idle initial queue. -/
def QueueReachable (s : QueueState) : Prop :=
  Relation.ReflTransGen QueueStep ⟨0, 0⟩ s

/-- What the end listener decides (bulk.js lines 226 to 230). -/
inductive EndAction where
  | finishNow
  | waitForDrain
deriving DecidableEq, Repr

/-- Model of the end listener (bulk.js lines 226 to 230): it consults only
uploadQueue.running(), the number of in-flight workers; when that is
nonzero the drain callback is installed, otherwise finishRequest runs at
once, whatever number of tasks is still pending unstarted. -/
def onEnd (q : QueueState) : EndAction :=
  if q.running != 0 then EndAction.waitForDrain else EndAction.finishNow

/-- Setting a key in the keep map makes its lookup truthy, whatever the key:
an ordinary key becomes an own key, and the one key the assignment cannot
create, __proto__, is truthy through the prototype chain anyway. -/
theorem KeepMap.truthy_set (m : KeepMap) (k : String) : (m.set k).truthy k = true := by
  unfold KeepMap.set KeepMap.truthy
  by_cases h : k = "__proto__"
  · subst h
    simp [objectPrototypeKeys]
  · simp [h]

/-- A truthy key never enters the delete set of the reconciliation pass. -/
theorem not_mem_reconToDelete_of_truthy (keep : KeepMap) (existing : List String)
    (id : String) (h : keep.truthy id = true) : id ∉ reconToDelete keep existing := by
  intro hmem
  have := List.of_mem_filter hmem
  simp [h] at this

/-- Pagination over pages that all carry at least one ID accumulates their
concatenation, terminated by the zero-item page. -/
theorem collectExisting_all_full (ps : List (List String)) (acc : List String)
    (h : ∀ p ∈ ps, p ≠ []) :
    collectExisting ps ListTerm.emptyPage acc = Except.ok (acc ++ ps.join) := by
  induction ps generalizing acc with
  | nil => simp [collectExisting]
  | cons p rest ih =>
    have hp : p ≠ [] := h p (by simp)
    have hlen : 0 < p.length := List.length_pos.mpr hp
    simp only [collectExisting, if_pos hlen, List.join]
    rw [ih (acc ++ p) (fun q hq => h q (by simp [hq]))]
    simp

/-- Pagination stops at the first zero-item page: pages after it are never
requested, whatever the terminal would have been. -/
theorem collectExisting_stops_at_empty (ps₁ ps₂ : List (List String)) (t : ListTerm)
    (acc : List String) (h : ∀ p ∈ ps₁, p ≠ []) :
    collectExisting (ps₁ ++ [] :: ps₂) t acc = Except.ok (acc ++ ps₁.join) := by
  induction ps₁ generalizing acc with
  | nil => simp [collectExisting]
  | cons p rest ih =>
    have hp : p ≠ [] := h p (by simp)
    have hlen : 0 < p.length := List.length_pos.mpr hp
    have hstep : (p :: rest) ++ [] :: ps₂ = p :: (rest ++ [] :: ps₂) := rfl
    rw [hstep]
    simp only [collectExisting, if_pos hlen]
    rw [ih (acc ++ p) (fun q hq => h q (by simp [hq]))]
    simp

/-- Request state of a run whose config entry assigned a contentIDBase and
that accumulated no keep entries, as used for the error-path scenarios. -/
def c1State : RequestState :=
  { contentIDBase := some (Json.str "https://content.example.test"),
    envelopeCount := 2, failureCount := 0, deletionCount := 0, toKeep := ⟨[]⟩ }

/-- C1: the claim states that exactly one of the two outcome paths executes
and that a reconciliation failure bypasses the success path of the
Completion Reporter. The code violates this: the error branch of
finishRequest does not return after the fatal reportError, so on a listing
failure the handler emits the fatal error response AND the 204 success
completion, both. -/
theorem c1_both_paths_execute :
    (finishRequest c1State [] (ListTerm.failure "listing failed") none).2
      = [Emit.fatalNext 400, Emit.completionSend 204] := rfl

/-- C3: the claim states the coordinator waits for zero pending and zero
in-flight tasks before reconciliation. The code violates this: the queue
state with one pushed task and no running worker is reachable (the async
library starts workers on a deferred tick), the end listener consults only
uploadQueue.running(), and so it runs finishRequest immediately while a
submitted task is still pending. -/
theorem c3_drain_violated :
    QueueReachable ⟨1, 0⟩ ∧ onEnd ⟨1, 0⟩ = EndAction.finishNow ∧
      (⟨1, 0⟩ : QueueState).pending ≠ 0 :=
  ⟨Relation.ReflTransGen.single (QueueStep.push 0 0), rfl, by decide⟩

/-- C9: every queue state reachable from the idle pool has at most 10
in-flight storage operations, whatever number of tasks is pending. -/
theorem c9_concurrency_bound (s : QueueState) (h : QueueReachable s) :
    s.running ≤ 10 := by
  induction h with
  | refl => decide
  | tail _ step ih =>
    cases step with
    | push p r => exact ih
    | start p r hlt => exact hlt
    | finish p r => exact Nat.le_of_succ_le ih

/-- C9 witness: the bound applied to a concrete reachable state with one
running worker and three pending tasks. -/
theorem c9_witness : (⟨3, 1⟩ : QueueState).running ≤ 10 :=
  c9_concurrency_bound ⟨3, 1⟩
    (Relation.ReflTransGen.tail
      (Relation.ReflTransGen.tail
        (Relation.ReflTransGen.tail
          (Relation.ReflTransGen.tail
            (Relation.ReflTransGen.single (QueueStep.push 0 0))
            (QueueStep.start 0 0 (by decide)))
          (QueueStep.push 0 1))
        (QueueStep.push 1 1))
      (QueueStep.push 2 1))

/-- C10: a content ID equal to a property name inherited from
Object.prototype tests as kept in every keep map, even one it was never
added to, and consequently never enters the delete set of the
reconciliation pass. -/
theorem c10_prototype_pollution (m : KeepMap) (existing : List String)
    (id : String) (h : id ∈ objectPrototypeKeys) :
    m.truthy id = true ∧ id ∉ reconToDelete m existing := by
  have ht : m.truthy id = true := by
    unfold KeepMap.truthy
    have : objectPrototypeKeys.contains id = true := List.elem_eq_true_of_mem h
    simp only [this, Bool.or_true]
  exact ⟨ht, not_mem_reconToDelete_of_truthy m existing id ht⟩

/-- C10 witness: the ID constructor, never added to the empty keep map, is
treated as kept and survives a reconciliation listing containing it. -/
theorem c10_witness :
    KeepMap.truthy ⟨[]⟩ "constructor" = true ∧
      "constructor" ∉ reconToDelete ⟨[]⟩ ["constructor"] :=
  c10_prototype_pollution ⟨[]⟩ ["constructor"] "constructor" (by decide)

/-- C2: for an entry classified as an envelope, the percent-decoded content
ID enters the keep map synchronously, identically for every materialisation
outcome; a parse failure still increments failureCount, a storage outcome
never touches the keep map, and the ID never enters the delete set of the
reconciliation pass. -/
theorem c2_keep_added_at_classification (st : RequestState) (entryPath : String)
    (parsed : Except String Json) (contentID : String)
    (hdec : decodeURIComponent (pathBasenameExt entryPath ".json") = some contentID) :
    ∃ st1 em task, handleEnvelopeEntry st entryPath parsed = some (st1, em, task) ∧
      st1.toKeep = st.toKeep.set contentID ∧
      st1.toKeep.truthy contentID = true ∧
      (∀ e, parsed = Except.error e → st1.failureCount = st.failureCount + 1) ∧
      (∀ t serr, (envelopeWorker st1 t serr).1.toKeep = st1.toKeep) ∧
      (∀ existing, contentID ∉ reconToDelete st1.toKeep existing) := by
  unfold handleEnvelopeEntry
  rw [hdec]
  have hworker : ∀ (s : RequestState) (t : IngestionTask) (serr : Option String),
      (envelopeWorker s t serr).1.toKeep = s.toKeep := by
    intro s t serr
    cases serr <;> rfl
  cases parsed with
  | error e =>
    refine ⟨_, _, _, rfl, rfl, KeepMap.truthy_set _ _, fun e2 h2 => rfl, hworker _, ?_⟩
    intro existing
    exact not_mem_reconToDelete_of_truthy _ existing _ (KeepMap.truthy_set _ _)
  | ok envelope =>
    refine ⟨_, _, _, rfl, rfl, KeepMap.truthy_set _ _, fun e2 h2 => Except.noConfusion h2, hworker _, ?_⟩
    intro existing
    exact not_mem_reconToDelete_of_truthy _ existing _ (KeepMap.truthy_set _ _)

/-- C2 witness: the envelope entry portal/one.json whose JSON fails to
parse, applied to the initial state. -/
theorem c2_witness :
    ∃ st1 em task, handleEnvelopeEntry initialState "portal/one.json"
        (Except.error "bad json") = some (st1, em, task) ∧
      st1.toKeep = initialState.toKeep.set "one" ∧
      st1.toKeep.truthy "one" = true ∧
      (∀ e, (Except.error "bad json" : Except String Json) = Except.error e →
        st1.failureCount = initialState.failureCount + 1) ∧
      (∀ t serr, (envelopeWorker st1 t serr).1.toKeep = st1.toKeep) ∧
      (∀ existing, "one" ∉ reconToDelete st1.toKeep existing) :=
  c2_keep_added_at_classification initialState "portal/one.json"
    (Except.error "bad json") "one" (by decide)

/-- C8: entry-level parse and validation failures are non-fatal (nothing is
emitted to the caller) and asymmetric: a config or keep entry with a parse
error or a missing required key leaves the state unchanged, while an
envelope entry with a parse error increments failureCount. -/
theorem c8_error_asymmetry (st : RequestState) (msg : String) (cfg keepJson : Json)
    (hc : jsProp cfg "contentIDBase" = none) (hk : jsProp keepJson "keep" = none)
    (entryPath : String) (contentID : String)
    (hdec : decodeURIComponent (pathBasenameExt entryPath ".json") = some contentID) :
    handleConfigEntry st (Except.error msg) = (st, []) ∧
    handleKeepEntry st (Except.error msg) = (st, []) ∧
    handleConfigEntry st (Except.ok cfg) = (st, []) ∧
    handleKeepEntry st (Except.ok keepJson) = (st, []) ∧
    handleEnvelopeEntry st entryPath (Except.error msg)
      = some ({ st with toKeep := st.toKeep.set contentID,
                        failureCount := st.failureCount + 1 }, [], none) := by
  refine ⟨rfl, rfl, ?_, ?_, ?_⟩
  · simp [handleConfigEntry, hc, reportErrorEmits]
  · simp [handleKeepEntry, hk, reportErrorEmits]
  · unfold handleEnvelopeEntry
    rw [hdec]
    rfl

/-- C8 witness: a parse error message, two objects lacking their required
keys, and the envelope entry portal/two.json, applied to the initial state. -/
theorem c8_witness :
    handleConfigEntry initialState (Except.error "bad") = (initialState, []) ∧
    handleKeepEntry initialState (Except.error "bad") = (initialState, []) ∧
    handleConfigEntry initialState (Except.ok (Json.obj [])) = (initialState, []) ∧
    handleKeepEntry initialState (Except.ok (Json.obj [])) = (initialState, []) ∧
    handleEnvelopeEntry initialState "portal/two.json" (Except.error "bad")
      = some ({ initialState with toKeep := initialState.toKeep.set "two",
                                  failureCount := initialState.failureCount + 1 }, [], none) :=
  c8_error_asymmetry initialState "bad" (Json.obj []) (Json.obj []) rfl rfl
    "portal/two.json" "two" (by decide)

/-- Membership in a concatenation of string lists splits into the two parts. -/
theorem strListContainsAppend (l₁ l₂ : List String) (a : String) :
    (l₁ ++ l₂).contains a = (l₁.contains a || l₂.contains a) := by
  induction l₁ with
  | nil => rfl
  | cons x xs ih => simp [List.contains_cons, ih, Bool.or_assoc]

/-- The delete set of the source equals a plain set difference against the
own keys of the keep map extended with the Object.prototype names. -/
theorem reconToDelete_eq_specSetDiff (keep : KeepMap) (existing : List String) :
    reconToDelete keep existing
      = specSetDiff existing (keep.ownKeys ++ objectPrototypeKeys) := by
  unfold reconToDelete specSetDiff KeepMap.truthy
  apply List.filter_congr
  intro id _
  rw [strListContainsAppend]

/-- Reconciliation state with a configured base and an empty keep map. -/
def c4State : RequestState :=
  { contentIDBase := some (Json.str "base"), envelopeCount := 0, failureCount := 0,
    deletionCount := 0, toKeep := ⟨[]⟩ }

/-- C4 counterexample: with an empty keep set and the single existing ID
constructor, the spec set difference existing minus keep-set is the whole
listing, yet the code deletes nothing and reports deletionCount 0, because
the truthiness lookup finds Object.prototype.constructor. -/
theorem c4_counterexample :
    (removeDeletedContent c4State [["constructor"]] ListTerm.emptyPage none).1.deletionCount = 0 ∧
    reconToDelete c4State.toKeep ["constructor"] = [] ∧
    specSetDiff ["constructor"] c4State.toKeep.ownKeys = ["constructor"] ∧
    reconToDelete c4State.toKeep ["constructor"]
      ≠ specSetDiff ["constructor"] c4State.toKeep.ownKeys :=
  ⟨rfl, rfl, rfl, by decide⟩

/-- C4 (amended): the pass runs exactly when contentIDBase was assigned and
is a no-op otherwise; a listing error aborts it; otherwise the listing is
accumulated until a zero-item page, the delete set is the set difference of
the existing IDs minus the union of the keep-set and the Object.prototype
property names, exactly that set is handed to deletion, and deletionCount
is its size. -/
theorem c4_amended (st : RequestState) (pages : List (List String)) (t : ListTerm)
    (deleteErr : Option String) :
    (st.contentIDBase = none → removeDeletedContent st pages t deleteErr = (st, none)) ∧
    (∀ b, st.contentIDBase = some b → ∀ e, collectExisting pages t [] = Except.error e →
      removeDeletedContent st pages t deleteErr = (st, some e)) ∧
    (∀ b, st.contentIDBase = some b → ∀ existing,
      collectExisting pages t [] = Except.ok existing →
      reconToDelete st.toKeep existing
          = specSetDiff existing (st.toKeep.ownKeys ++ objectPrototypeKeys) ∧
      removeDeletedContent st pages t deleteErr
          = ({ st with deletionCount := (reconToDelete st.toKeep existing).length },
             deleteErr)) ∧
    (∀ ps₁ ps₂, (∀ p ∈ ps₁, p ≠ []) →
      collectExisting (ps₁ ++ [] :: ps₂) t [] = Except.ok ps₁.join) ∧
    ((∀ p ∈ pages, p ≠ []) →
      collectExisting pages ListTerm.emptyPage [] = Except.ok pages.join) := by
  refine ⟨?_, ?_, ?_, ?_, ?_⟩
  · intro h
    unfold removeDeletedContent
    rw [h]
  · intro b hb e he
    unfold removeDeletedContent
    rw [hb, he]
  · intro b hb existing he
    refine ⟨reconToDelete_eq_specSetDiff st.toKeep existing, ?_⟩
    unfold removeDeletedContent
    rw [hb, he]
    cases deleteErr <;> rfl
  · intro ps₁ ps₂ h
    simpa using collectExisting_stops_at_empty ps₁ ps₂ t [] h
  · intro h
    simpa using collectExisting_all_full pages [] h

/-- Reconciliation state with a configured base and one kept ID. -/
def c4wState : RequestState :=
  { contentIDBase := some (Json.str "base"), envelopeCount := 0, failureCount := 0,
    deletionCount := 0, toKeep := ⟨["a"]⟩ }

/-- C4 witness: the amended characterisation applied to a configured state, a
one-page listing and the empty-page terminal. -/
theorem c4_witness :
    reconToDelete c4wState.toKeep ["a", "constructor", "b"]
        = specSetDiff ["a", "constructor", "b"]
            (c4wState.toKeep.ownKeys ++ objectPrototypeKeys) ∧
    removeDeletedContent c4wState [["a", "constructor", "b"]] ListTerm.emptyPage none
        = ({ c4wState with
              deletionCount :=
                (reconToDelete c4wState.toKeep ["a", "constructor", "b"]).length },
           none) :=
  (c4_amended c4wState [["a", "constructor", "b"]] ListTerm.emptyPage none).2.2.1
    (Json.str "base") rfl ["a", "constructor", "b"] rfl

/-- Request state used for the classification counterexample of the
reconciliation failure path. -/
def c5State : RequestState :=
  { contentIDBase := some (Json.str "https://content.example.test"),
    envelopeCount := 1, failureCount := 1, deletionCount := 0, toKeep := ⟨[]⟩ }

/-- C5 counterexample: the claim states a reconciliation failure aborts with
a server-class classification; the code classifies it with statusCode 400,
which is client-class, the same class as archive decode errors. -/
theorem c5_counterexample :
    (finishRequest c5State [] (ListTerm.failure "list error") none).2.head?
        = some (Emit.fatalNext 400) ∧
    isServerClass 400 = false ∧ isClientClass 400 = true :=
  ⟨rfl, rfl, rfl⟩

/-- C5 (amended): whenever the reconciliation pass fails, the request
reports a fatal error carrying statusCode 400, a client-class
classification and the same one the archive decode error handler uses. -/
theorem c5_amended (st : RequestState) (pages : List (List String)) (t : ListTerm)
    (d : Option String) (h : (removeDeletedContent st pages t d).2.isSome = true) :
    Emit.fatalNext 400 ∈ (finishRequest st pages t d).2 ∧
    isClientClass 400 = true ∧ archiveErrorEmits = [Emit.errorSend 400] := by
  refine ⟨?_, rfl, rfl⟩
  unfold finishRequest
  cases hr : (removeDeletedContent st pages t d).2 with
  | none => rw [hr] at h; cases h
  | some e => simp [hr, reportErrorEmits]

/-- C5 witness: the amended statement applied to a run whose listing fails. -/
theorem c5_witness :
    Emit.fatalNext 400
        ∈ (finishRequest c5State [] (ListTerm.failure "list error") none).2 ∧
    isClientClass 400 = true ∧ archiveErrorEmits = [Emit.errorSend 400] :=
  c5_amended c5State [] (ListTerm.failure "list error") none rfl

/-- A single chunk holding exactly the reported size passes through
Buffer.concat unchanged. -/
theorem bufferConcat_exact (b : List Nat) : bufferConcat [b] b.length = b := by
  unfold bufferConcat
  simp

/-- A single chunk longer than the reported size is truncated to the size by
Buffer.concat: the surplus bytes vanish. -/
theorem bufferConcat_truncates (b extra : List Nat) :
    bufferConcat [b ++ extra] b.length = b := by
  have h2 : b.length - (b ++ extra).length = 0 := by
    rw [List.length_append]
    omega
  simp [bufferConcat, h2, List.take_left]

/-- C6 counterexample: the codec reports 2 bytes but the stream delivers the
3 bytes of an open brace, a close brace and the letter X; Buffer.concat
silently drops the surplus byte and JSON.parse succeeds on the truncated
prefix, so materialisation succeeds on a byte sequence longer than the
reported size, which the claim rules out. -/
theorem c6_counterexample :
    jsonFromStream (StreamOutcome.ended [[123, 125, 88]] 2) = Except.ok (Json.obj []) ∧
    ([[123, 125, 88]] : List (List Nat)).join.length = 3 ∧ (3 : Nat) ≠ 2 :=
  ⟨rfl, rfl, by decide⟩

/-- C6 (amended): the materialiser considers exactly the first size bytes of
the delivered sequence, so surplus bytes beyond the reported size are
silently discarded and cannot change the outcome; on the sequence of
exactly the reported size it yields the parsed JSON value precisely when
JSON.parse accepts the decoded text, and a stream error is propagated as a
failure. -/
theorem c6_amended (b extra : List Nat) (size : Nat) (h : b.length = size) :
    jsonFromStream (StreamOutcome.ended [b ++ extra] size)
        = jsonFromStream (StreamOutcome.ended [b] size) ∧
    (∀ v, jsonFromStream (StreamOutcome.ended [b] size) = Except.ok v ↔
        jsonParse (utf8DecodeReplace b) = some v) ∧
    (∀ m, jsonFromStream (StreamOutcome.errored m) = Except.error m) := by
  subst h
  refine ⟨?_, ?_, fun m => rfl⟩
  · simp only [jsonFromStream]
    rw [bufferConcat_truncates, bufferConcat_exact]
  · intro v
    simp only [jsonFromStream]
    rw [bufferConcat_exact]
    cases hp : jsonParse (utf8DecodeReplace b) with
    | none => simp [hp]
    | some w => simp [hp]

/-- C6 witness: the amended statement applied to the two-byte object text
with one surplus byte. -/
theorem c6_witness :
    jsonFromStream (StreamOutcome.ended [[123, 125] ++ [88]] 2)
        = jsonFromStream (StreamOutcome.ended [[123, 125]] 2) ∧
    (jsonFromStream (StreamOutcome.ended [[123, 125]] 2) = Except.ok (Json.obj []) ↔
        jsonParse (utf8DecodeReplace [123, 125]) = some (Json.obj [])) :=
  ⟨(c6_amended [123, 125] [88] 2 rfl).1,
   (c6_amended [123, 125] [88] 2 rfl).2.1 (Json.obj [])⟩

/-- C7 counterexample: for the path data/.json the base name ends in .json,
so the claim makes it an envelope whose content ID is the percent-decoding
of the base name with the suffix stripped, the empty string; the code uses
path.basename(p, ".json"), which keeps a base name equal to the extension
whole, and yields the content ID .json instead. -/
theorem c7_counterexample :
    classifyDecoded "data/.json" = SpecClass.envelope (some ".json") ∧
    classifySpecLiteral "data/.json" = SpecClass.envelope (some "") ∧
    SpecClass.envelope (some ".json") ≠ SpecClass.envelope (some "") :=
  ⟨by decide, by decide, by decide⟩

/-- C7 (amended): classification follows the claimed rules with one
exception forced by the counterexample: a base name exactly equal to .json
keeps its suffix, so its content ID percent-decodes .json itself; and
non-File entries are discarded before classification while File entries are
classified exactly by these rules. -/
theorem c7_amended :
    (∀ p, classifyDecoded p = classifySpecAmended p) ∧
    (∀ ty p, ty ≠ "File" → onEntry ty p = none) ∧
    (∀ p, onEntry "File" p = some (classifyDecoded p)) := by
  refine ⟨?_, ?_, fun p => rfl⟩
  · intro p
    have hlen : (".json" : String).length = 5 := rfl
    by_cases hd : lastDirComponent p == "metadata"
    · simp [classifyDecoded, classifySpecAmended, hd]
    · by_cases he : strEndsWith (pathBasename p) ".json"
      · by_cases hb : pathBasename p == ".json"
        · simp [classifyDecoded, classifySpecAmended, hd, he, hb, pathBasenameExt, hlen]
          rw [if_pos (eq_of_beq hb)]
        · simp [classifyDecoded, classifySpecAmended, hd, he, hb, pathBasenameExt, hlen]
          rw [if_neg (by simpa using hb)]
      · simp [classifyDecoded, classifySpecAmended, hd, he]
  · intro ty p h
    simp [onEntry, h]

/-- C7 witness: a directory entry is skipped, and the amended rule applied to
a concrete file path. -/
theorem c7_witness :
    onEntry "Directory" "portal/three.json" = none ∧
    classifyDecoded "portal/three.json" = classifySpecAmended "portal/three.json" :=
  ⟨c7_amended.2.1 "Directory" "portal/three.json" (by decide),
   c7_amended.1 "portal/three.json"⟩
